import Mathlib

/-!
Verification of the bcndetection daily feature pipeline
(dummypipeline/0_genfeats_nongraph.ipynb and dummypipeline/1_genfeats_graph.ipynb).

The development shallowly embeds the data preparation, the graph store passes and
the feature assembly of the pipeline, and settles the specification claims about
them.  External Python libraries (tldextract, ipaddress, pandas, neo4j) are
embedded as explicit parameters or as reference models noted in the doc comments.
-/

namespace Bcn

/- ## Daily batch preparation (cells 3, 6 and 8 of 1_genfeats_graph.ipynb) -/

/-- Splits a character list at every dot, keeping empty fields. -/
def splitDots : List Char → List (List Char)
  | [] => [[]]
  | c :: cs =>
    if c = '.' then [] :: splitDots cs
    else
      match splitDots cs with
      | [] => [[c]]
      | p :: ps => (c :: p) :: ps

/-- Decimal value of a digit string. -/
def decimalVal : List Char → Nat
  | [] => 0
  | c :: cs => (c.toNat - 48) * 10 ^ cs.length + decimalVal cs

/-- Reference model of Python `ipaddress.ip_address` on dotted-quad input as used by the
notebook (Python 3.8): four dot-separated, non-empty, all-digit fields whose decimal
value is at most 255.  IPv6 literals are not modelled; every input evaluated in this
development is either a dotted quad or a hostname. -/
def pyIsIPAddress (s : String) : Bool :=
  let parts := splitDots s.toList
  decide (parts.length = 4) && parts.all fun p =>
    decide (1 ≤ p.length) && p.all Char.isDigit && decide (decimalVal p ≤ 255)

/-- Module names bound by the import statements of 1_genfeats_graph.ipynb
(cell-1: pandas as pd, numpy as np, datetime, os; cell-5: tldextract,
neo4j.GraphDatabase, src.addnode.AddNode, src.temporal_feats.merge_cisco).
The name `ipaddress` is not among them: the notebook never imports `ipaddress`. -/
def graphNotebookImports : List String :=
  ["pd", "np", "datetime", "os", "tldextract", "GraphDatabase", "AddNode", "merge_cisco"]

/-- Function isIP of cell-6: it evaluates `ipaddress.ip_address(dom_text)` under a bare
`try/except`, returning 1 on success and 0 on any exception.  Evaluating the expression
first looks up the name `ipaddress` in the notebook environment `env`; when the name is
unbound that lookup raises NameError, which the bare `except` also catches, so the
function returns 0 without ever parsing the string. -/
def isIP (env : List String) (dom_text : String) : Nat :=
  if env.contains "ipaddress" then
    if pyIsIPAddress dom_text then 1 else 0
  else 0

/-- Function parse_reg_dom of cell-6, with the external call `tldextract.extract` passed
in as a function: `extract text = none` models the extract call raising, and
`extract text = some r` models it returning an object with `registered_domain = r`.
The code returns the extracted registered domain, falling back to the raw input when
the call raises or the registered domain is the empty string. -/
def parse_reg_dom (extract : String → Option String) (text : String) : String :=
  match extract text with
  | none => text
  | some r => if r = "" then text else r

/-- One row of the daily traffic batch dummydata/dummy100.csv: host name, client
address, server address and port extracted from Zeek logs. -/
structure LogRow where
  host : String
  id_orig_h : String
  id_resp_h : String
  port : Nat
deriving DecidableEq

/-- One batch row after the client-address column is removed. -/
structure TrafficRow where
  host : String
  id_resp_h : String
  port : Nat
deriving DecidableEq

/-- Cell-8 line `logdf = host100.drop(columns=["id_orig_h"])`: the client-address
column is dropped from the daily batch before graph-input preparation. -/
def dropClientColumn (batch : List LogRow) : List TrafficRow :=
  batch.map fun r => { host := r.host, id_resp_h := r.id_resp_h, port := r.port }

/-- One row of the prepared graph-input table data_YYYY-MM-DD.csv written by cell-8:
the traffic columns plus the looked-up global rank, the log day, the registered
domain and the isIP flag. -/
structure GraphRow where
  host : String
  id_resp_h : String
  port : Nat
  cisco_rank : Option String
  logday : String
  domain : String
  isIP : Nat
deriving DecidableEq

/-- Host-to-rank lookup in a parsed popularity table (first matching row wins). -/
def rankLookup (m : List (String × String)) (host : String) : Option String :=
  (m.find? fun p => decide (p.1 = host)).map Prod.snd

/-- Function prepare_graph_inputdata of cell-6: merge_cisco attaches the global
popularity reference by host (src/temporal_feats.py is not in the sources; per the
spec the rank-to-score mapping is an external collaborator concern, so the looked-up
rank is recorded), then the logday, domain and isIP columns are computed per row. -/
def prepare_graph_inputdata (extract : String → Option String) (env : List String)
    (ciscoHR : List (String × String)) (logday : String) (rows : List TrafficRow) :
    List GraphRow :=
  rows.map fun r =>
    { host := r.host
      id_resp_h := r.id_resp_h
      port := r.port
      cisco_rank := rankLookup ciscoHR r.host
      logday := logday
      domain := parse_reg_dom extract r.host
      isIP := isIP env r.host }

/- ## The two parsings of dummydata/cisco_top1m.csv (claim C10) -/

/-- Host/rank table obtained by 1_genfeats_graph.ipynb cell-3:
`pd.read_csv(..., names=["rank", "host"])` — the first CSV field is the rank and the
second is the host, so the host-to-rank pair of a raw line `(f1, f2)` is `(f2, f1)`. -/
def graphHostRank (csv : List (String × String)) : List (String × String) :=
  csv.map fun r => (r.2, r.1)

/-- Host/rank table obtained by 0_genfeats_nongraph.ipynb cell-2:
`pd.read_csv(..., names=["host", "rank"])` — the first CSV field is the host and the
second is the rank, so a raw line is already a host-to-rank pair. -/
def nongraphHostRank (csv : List (String × String)) : List (String × String) :=
  csv

/- ## Claim C1 -/

/-- C1 (code_bug evaluation): the daily batch of the demo day contains the literal IP
host 104.192.108.134, and the string does parse as an IP address, yet the graph-input
preparation of the notebook marks the row with isIP = 0: the notebook never imports
`ipaddress`, the name lookup inside isIP raises NameError, and the bare `except`
returns 0 for every host. -/
theorem c1_isIP_flag_is_zero_for_ip_literal_host :
    pyIsIPAddress "104.192.108.134" = true ∧
    graphNotebookImports.contains "ipaddress" = false ∧
    isIP graphNotebookImports "104.192.108.134" = 0 ∧
    (prepare_graph_inputdata (fun _ => some "") graphNotebookImports [] "2021-03-30"
        [{ host := "104.192.108.134", id_resp_h := "104.192.108.134", port := 443 }]).map
      GraphRow.isIP = [0] := by
  refine ⟨by decide, by decide, rfl, rfl⟩

/- ## Claim C7 -/

/-- C7: the registered-domain key of a host is the public-suffix-aware registered
domain computed by tldextract; when extraction raises or yields the empty registered
domain, parse_reg_dom returns its input unchanged. -/
theorem c7_parse_reg_dom_fallback (extract : String → Option String) (text r : String) :
    (extract text = some r → r ≠ "" → parse_reg_dom extract text = r) ∧
    (extract text = none → parse_reg_dom extract text = text) ∧
    (extract text = some "" → parse_reg_dom extract text = text) := by
  refine ⟨fun hs hr => ?_, fun hn => ?_, fun he => ?_⟩
  · simp [parse_reg_dom, hs, hr]
  · simp [parse_reg_dom, hn]
  · simp [parse_reg_dom, he]

/-- Witness for C7 at concrete extraction results. -/
theorem c7_witness :
    parse_reg_dom (fun _ => some "example.com") "a.example.com" = "example.com" ∧
    parse_reg_dom (fun _ => none) "a.example.com" = "a.example.com" ∧
    parse_reg_dom (fun _ => some "") "104.192.108.134" = "104.192.108.134" :=
  ⟨(c7_parse_reg_dom_fallback (fun _ => some "example.com") "a.example.com"
      "example.com").1 rfl (by decide),
   (c7_parse_reg_dom_fallback (fun _ => none) "a.example.com" "x").2.1 rfl,
   (c7_parse_reg_dom_fallback (fun _ => some "") "104.192.108.134" "x").2.2 rfl⟩

/- ## Claim C9 -/

/-- C9: the client-address column never reaches the graph input.  Two daily batches
that agree on host, server address and port — and may differ arbitrarily in the
client column id_orig_h — produce identical graph-input data, because cell-8 drops
id_orig_h before prepare_graph_inputdata runs. -/
theorem c9_client_column_noninterference (extract : String → Option String)
    (env : List String) (cisco : List (String × String)) (day : String)
    (b1 b2 : List LogRow)
    (h : List.Forall₂ (fun r1 r2 : LogRow =>
      r1.host = r2.host ∧ r1.id_resp_h = r2.id_resp_h ∧ r1.port = r2.port) b1 b2) :
    prepare_graph_inputdata extract env cisco day (dropClientColumn b1) =
      prepare_graph_inputdata extract env cisco day (dropClientColumn b2) := by
  have hdrop : dropClientColumn b1 = dropClientColumn b2 := by
    induction h with
    | nil => rfl
    | cons hr _ ih =>
      simp only [dropClientColumn, List.map_cons] at ih ⊢
      rw [hr.1, hr.2.1, hr.2.2]
      exact congrArg _ ih
  rw [hdrop]

/-- Witness for C9: two one-row batches that differ only in the client address. -/
theorem c9_witness :
    prepare_graph_inputdata (fun _ => some "example.com") graphNotebookImports
        [("1", "a.example.com")] "2021-03-30"
        (dropClientColumn
          [{ host := "a.example.com", id_orig_h := "10.0.0.1",
             id_resp_h := "1.1.1.1", port := 443 }]) =
      prepare_graph_inputdata (fun _ => some "example.com") graphNotebookImports
        [("1", "a.example.com")] "2021-03-30"
        (dropClientColumn
          [{ host := "a.example.com", id_orig_h := "10.0.0.2",
             id_resp_h := "1.1.1.1", port := 443 }]) :=
  c9_client_column_noninterference _ _ _ _ _ _
    (List.Forall₂.cons ⟨rfl, rfl, rfl⟩ List.Forall₂.nil)

/- ## Claim C10 -/

/-- C10 counterexample: a popularity file whose two columns differ (the line (a, b)
has distinct fields) but for which the two opposite parsings induce exactly the same
host-to-rank lookup, refuting the claim that the mappings differ for every such file. -/
theorem c10_counterexample :
    (∃ r ∈ [("a", "b"), ("b", "a")], r.1 ≠ r.2) ∧
    ∀ h : String,
      rankLookup (graphHostRank [("a", "b"), ("b", "a")]) h =
        rankLookup (nongraphHostRank [("a", "b"), ("b", "a")]) h := by
  refine ⟨⟨("a", "b"), by decide, by decide⟩, fun h => ?_⟩
  by_cases ha : h = "a"
  · subst ha; decide
  · by_cases hb : h = "b"
    · subst hb; decide
    · simp [rankLookup, graphHostRank, nongraphHostRank, List.find?,
        decide_eq_false (fun hc : "b" = h => hb hc.symm),
        decide_eq_false (fun hc : "a" = h => ha hc.symm)]

/-- A pair list equal to its own field-swap consists of pairs with equal fields. -/
theorem eq_fields_of_swap_eq_self {l : List (String × String)}
    (h : l.map (fun r => (r.2, r.1)) = l) : ∀ r ∈ l, r.1 = r.2 := by
  induction l with
  | nil => intro r hr; exact absurd hr (List.not_mem_nil r)
  | cons a t ih =>
    intro r hr
    simp only [List.map_cons, List.cons.injEq] at h
    rcases List.mem_cons.mp hr with rfl | hmt
    · exact (congrArg Prod.fst h.1).symm
    · exact ih h.2 r hmt

/-- C10 amended: the graph notebook and the non-graph notebook parse
dummydata/cisco_top1m.csv with opposite column assignments, so the graph host-to-rank
table is the field-swap of the non-graph one; as tables they differ whenever any line
has two distinct fields, and the induced host-to-rank lookups differ on asymmetric
files such as [(1, google.com)] — though not on every file with differing columns. -/
theorem c10_amended :
    (∀ csv : List (String × String),
      graphHostRank csv = (nongraphHostRank csv).map Prod.swap) ∧
    (∀ csv : List (String × String), (∃ r ∈ csv, r.1 ≠ r.2) →
      graphHostRank csv ≠ nongraphHostRank csv) ∧
    rankLookup (graphHostRank [("1", "google.com")]) "google.com" ≠
      rankLookup (nongraphHostRank [("1", "google.com")]) "google.com" := by
  refine ⟨fun csv => rfl, fun csv hr heq => ?_, by decide⟩
  obtain ⟨r, hmem, hne⟩ := hr
  exact hne (eq_fields_of_swap_eq_self heq r hmem)

/-- Witness for C10's amended statement: the mappings differ on a concrete file with
distinct fields. -/
theorem c10_amended_witness :
    graphHostRank [("1", "google.com")] ≠ nongraphHostRank [("1", "google.com")] :=
  c10_amended.2.1 [("1", "google.com")] ⟨("1", "google.com"), by decide, by decide⟩

/- ## Feature assembly (cells 21 and 22 of 1_genfeats_graph.ipynb): claim C3 -/

/-- One per-day feature table: named feature columns and host-keyed rows; a cell
holds `none` where the stored table has a null/NaN value. -/
structure FTable where
  cols : List String
  rows : List (String × List (Option Int))
deriving DecidableEq

/-- Cell-21: the raw join keys dropped from the final table. -/
def drop_col : List String := ["domain", "id_resp_h", "true_periods", "total_maleng"]

/-- The hosts (join keys) of a feature table. -/
def hostsOf (t : FTable) : List String := t.rows.map Prod.fst

/-- Cell-22 `pd.read_parquet(...).fillna(0)`: nulls inside the table just read are
replaced by 0 before any merging happens. -/
def fillna0 (t : FTable) : FTable :=
  { t with rows := t.rows.map fun r => (r.1, r.2.map fun v => some (v.getD 0)) }

/-- The column-drop loop of cell-22: columns listed in drop_col are removed, with
their values. -/
def dropColumns (dels : List String) (t : FTable) : FTable :=
  { cols := t.cols.filter fun c => !dels.contains c
    rows := t.rows.map fun r =>
      (r.1, ((t.cols.zip r.2).filter fun p => !dels.contains p.1).map Prod.snd) }

/-- Rows of the right table matching a host. -/
def matchesFor (t : FTable) (h : String) : List (List (Option Int)) :=
  (t.rows.filter fun q => decide (q.1 = h)).map Prod.snd

/-- The fate of one anchor row under a pandas left merge: it is joined with every
matching right row, or padded with nulls when the host is absent from the right. -/
def joinRow (t : FTable) (r : String × List (Option Int)) :
    List (String × List (Option Int)) :=
  match matchesFor t r.1 with
  | [] => [(r.1, r.2 ++ t.cols.map fun _ => (none : Option Int))]
  | ms => ms.map fun m => (r.1, r.2 ++ m)

/-- Cell-22 `datadf.merge(tmpfeat, on="host", how="left")`. -/
def leftMerge (d t : FTable) : FTable :=
  { cols := d.cols ++ t.cols, rows := d.rows.flatMap (joinRow t) }

/-- The per-table preparation of cell-22: fillna(0), then the drop_col loop. -/
def prepTable (t : FTable) : FTable := dropColumns drop_col (fillna0 t)

/-- One iteration of the cell-22 loop.  The initial `pd.DataFrame()` has no columns
and every feature table read has at least its host column, so the source's
`len(datadf.columns) == 0` test selects exactly the first table as the anchor,
modelled here by the `Option` accumulator. -/
def assembleStep (acc : Option FTable) (t : FTable) : Option FTable :=
  match acc with
  | none => some (prepTable t)
  | some d => some (leftMerge d (prepTable t))

/-- The feature-concat loop of cell-22 over the tables in precedence order. -/
def assemble (ts : List FTable) : FTable :=
  (ts.foldl assembleStep none).getD { cols := [], rows := [] }

/-- Merging every remaining table onto an anchor. -/
def mergeAll (d : FTable) (ts : List FTable) : FTable :=
  ts.foldl (fun acc t => leftMerge acc (prepTable t)) d

theorem foldl_assembleStep_some (d : FTable) (ts : List FTable) :
    ts.foldl assembleStep (some d) = some (mergeAll d ts) := by
  induction ts generalizing d with
  | nil => rfl
  | cons t ts ih => exact ih (leftMerge d (prepTable t))

theorem assemble_cons (t : FTable) (ts : List FTable) :
    assemble (t :: ts) = mergeAll (prepTable t) ts := by
  simp [assemble, List.foldl_cons, assembleStep, foldl_assembleStep_some]

theorem joinRow_ne_nil (t : FTable) (r : String × List (Option Int)) :
    joinRow t r ≠ [] := by
  unfold joinRow
  cases h : matchesFor t r.1 with
  | nil => simp
  | cons m ms => simp

theorem fst_of_mem_joinRow {t : FTable} {r x : String × List (Option Int)}
    (hx : x ∈ joinRow t r) : x.1 = r.1 := by
  unfold joinRow at hx
  cases h : matchesFor t r.1 with
  | nil => rw [h] at hx; simp at hx; rw [hx]
  | cons m ms =>
    rw [h] at hx
    obtain ⟨v, _, rfl⟩ := List.mem_map.mp hx
    rfl

theorem mem_hostsOf_leftMerge (d t : FTable) (h : String) :
    h ∈ hostsOf (leftMerge d t) ↔ h ∈ hostsOf d := by
  constructor
  · intro hx
    obtain ⟨x, hxmem, rfl⟩ := List.mem_map.mp hx
    obtain ⟨r, hr, hxr⟩ := List.mem_flatMap.mp hxmem
    rw [fst_of_mem_joinRow hxr]
    exact List.mem_map.mpr ⟨r, hr, rfl⟩
  · intro hh
    obtain ⟨r, hr, rfl⟩ := List.mem_map.mp hh
    obtain ⟨x, hx⟩ := List.exists_mem_of_ne_nil _ (joinRow_ne_nil t r)
    exact List.mem_map.mpr ⟨x, List.mem_flatMap.mpr ⟨r, hr, hx⟩, fst_of_mem_joinRow hx⟩

theorem hostsOf_prepTable (t : FTable) : hostsOf (prepTable t) = hostsOf t := by
  simp [hostsOf, prepTable, dropColumns, fillna0, List.map_map, Function.comp]

theorem mem_hostsOf_mergeAll (d : FTable) (ts : List FTable) (h : String) :
    h ∈ hostsOf (mergeAll d ts) ↔ h ∈ hostsOf d := by
  induction ts generalizing d with
  | nil => exact Iff.rfl
  | cons t ts ih =>
    exact (ih (leftMerge d (prepTable t))).trans (mem_hostsOf_leftMerge _ _ _)

/-- Example anchor table: one feature column y, single host a. -/
def exT1 : FTable := { cols := ["y"], rows := [("a", [some 1])] }

/-- Example later feature table: one feature column x, single host b. -/
def exT2 : FTable := { cols := ["x"], rows := [("b", [some 5])] }

/-- C3 counterexample: host b appears in the second input table but not in the
assembled table (the left join drops it), and the assembled table contains a null
cell (host a is absent from the second feature group, and fillna(0) runs before the
merge, not after) — refuting both halves of the claim at a concrete input. -/
theorem c3_counterexample :
    "b" ∈ hostsOf exT2 ∧ "b" ∉ hostsOf (assemble [exT1, exT2]) ∧
    (none : Option Int) ∈ ((assemble [exT1, exT2]).rows.map Prod.snd).flatten := by
  decide

/-- C3 amended: the assembled table contains exactly the hosts of the anchor (first)
table — hosts appearing only in later tables are dropped by the left join — and a
host of the anchor that is absent from a later feature group gets null (not 0) in
that group's columns, since fillna(0) is applied to each table before joining, as
the concrete assembly shows. -/
theorem c3_amended :
    (∀ (t : FTable) (ts : List FTable) (h : String),
      h ∈ hostsOf (assemble (t :: ts)) ↔ h ∈ hostsOf t) ∧
    assemble [exT1, exT2] = { cols := ["y", "x"], rows := [("a", [some 1, none])] } := by
  refine ⟨fun t ts h => ?_, by decide⟩
  rw [assemble_cons]
  rw [mem_hostsOf_mergeAll]
  rw [hostsOf_prepTable]

/- ## The graph store (AddNode passes of cells 11-12): claims C4, C5, C6, C8 -/

/-- Attributes of an FQDN node (spec section 3): latest observation day, the
popularity score, the malicious flag and the engagement score. -/
structure FQDNAttrs where
  logday : String
  popularity : Rat
  isMalicious : Bool
  malEngagement : Rat
deriving DecidableEq

/-- Aggregates recomputed onto a Domain node by the Domain pass (spec section 4.3). -/
structure DomAttrs where
  cntFQDN : Nat
  cntIP : Nat
  cntMalFQDNs : Nat
  sumMalEng : Rat
  maxMalEng : Rat
  minMalEng : Rat
  avgMalEng : Rat
  maxCisco : Rat
  minCisco : Rat
  avgCisco : Rat
  malFQDN_ratio : Rat
  malEng_ratio : Rat
deriving DecidableEq

/-- Aggregates recomputed onto an IP node by the IP pass (spec section 4.3). -/
structure IpAttrs where
  ipDom : Nat
  ipMalDom : Nat
  ipDomMalEng : Rat
deriving DecidableEq

/-- The property graph held by the store: FQDN, Domain and IP nodes with their
attributes, and the BELONGS_TO and RESOLVES_TO edge sets. -/
structure Store where
  fqdns : List (String × FQDNAttrs)
  domains : List String
  ips : List String
  belongs : List (String × String)
  resolves : List (String × String)
  domAttrs : List (String × DomAttrs)
  ipAttrs : List (String × IpAttrs)
deriving DecidableEq

/-- First-match lookup in a key-attribute list. -/
def lookupA {α : Type} : List (String × α) → String → Option α
  | [], _ => none
  | (k, a) :: rest, h => if k = h then some a else lookupA rest h

/-- One prepared batch row as consumed by add_nodes (spec section 4.1): host, server
address, registered domain, the isIP flag, the log day and the popularity score. -/
structure URow where
  host : String
  server_ip : String
  registered_domain : String
  is_ip : Bool
  logday : String
  popularity : Rat
deriving DecidableEq

/-- Set-like node/edge merge (neo4j MERGE): a key already present is left alone, a
new key is appended. -/
def insertNew {α : Type} [DecidableEq α] (x : α) (l : List α) : List α :=
  if x ∈ l then l else l ++ [x]

/-- Optional merge: inserts the key when the row contributes one. -/
def insOpt {α : Type} [DecidableEq α] : Option α → List α → List α
  | none, l => l
  | some x, l => insertNew x l

/-- Upsert of an FQDN node: an existing node keeps its labels and receives the latest
logday and popularity (spec section 3 lifecycle: attribute merge, never reset); a new
node starts unlabelled with engagement 0. -/
def upsertFQDN (fq : List (String × FQDNAttrs)) (host day : String) (pop : Rat) :
    List (String × FQDNAttrs) :=
  match fq with
  | [] =>
    [(host, { logday := day, popularity := pop, isMalicious := false, malEngagement := 0 })]
  | (k, a) :: rest =>
    if k = host then (k, { a with logday := day, popularity := pop }) :: rest
    else (k, a) :: upsertFQDN rest host day pop

/-- Domain key contributed by a row: an FQDN whose own string is an IP literal is not
given a distinct Domain node (spec section 3). -/
def domKey (r : URow) : Option String :=
  if r.is_ip then none else some r.registered_domain

/-- BELONGS_TO edge contributed by a row. -/
def belongsKey (r : URow) : Option (String × String) :=
  if r.is_ip then none else some (r.host, r.registered_domain)

/-- Modelled from the spec: one row of AddNode.add_nodes / GraphStore.upsert_batch
(src/addnode.py is not under src/; spec section 4.1): upsert the FQDN node with the
latest logday and popularity; when isIP is false, upsert the Domain node and merge
the BELONGS_TO edge; upsert the IP node and merge the RESOLVES_TO edge. -/
def upsertRow (s : Store) (r : URow) : Store :=
  { s with
    fqdns := upsertFQDN s.fqdns r.host r.logday r.popularity
    domains := insOpt (domKey r) s.domains
    belongs := insOpt (belongsKey r) s.belongs
    ips := insertNew r.server_ip s.ips
    resolves := insertNew (r.host, r.server_ip) s.resolves }

/-- Modelled from the spec: AddNode.add_nodes over a daily batch, row by row. -/
def add_nodes (s : Store) (batch : List URow) : Store := batch.foldl upsertRow s

/-- One label application: the FQDN entry with the given key is marked malicious and
its engagement raised to the max of the existing and incoming scores; a host absent
from the graph is skipped (spec section 4.2: no orphan creation). -/
def applyLabelRow (fq : List (String × FQDNAttrs)) (host : String) (eng : Rat) :
    List (String × FQDNAttrs) :=
  match fq with
  | [] => []
  | (k, a) :: rest =>
    if k = host then
      (k, { a with isMalicious := true, malEngagement := max a.malEngagement eng }) :: rest
    else (k, a) :: applyLabelRow rest host eng

/-- Modelled from the spec: AddNode.update_labels / LabelPropagator (spec
section 4.2): each (host, engagement) row of the historical malicious list is merged
onto the FQDN nodes. -/
def update_labels (s : Store) (malrows : List (String × Rat)) : Store :=
  { s with fqdns := malrows.foldl (fun fq r => applyLabelRow fq r.1 r.2) s.fqdns }

/-- Sum of a list of scores. -/
def sumQ (l : List Rat) : Rat := l.foldr (· + ·) 0

/-- Max of a list of scores, 0 when empty. -/
def maxQ (l : List Rat) : Rat := l.foldr max 0

/-- Min of a list of scores, 0 when empty. -/
def minQ : List Rat → Rat
  | [] => 0
  | x :: xs => xs.foldr min x

/-- Average of a list of scores, 0 when empty. -/
def avgQ (l : List Rat) : Rat := if l.length = 0 then 0 else sumQ l / (l.length : Rat)

/-- FQDN children of a Domain node: hosts with a BELONGS_TO edge into it. -/
def domChildren (s : Store) (d : String) : List String :=
  (s.belongs.filter fun e => decide (e.2 = d)).map Prod.fst

/-- Attributes of the children present in the store. -/
def childAttrs (s : Store) (d : String) : List FQDNAttrs :=
  (domChildren s d).filterMap (lookupA s.fqdns)

/-- Distinct IPs reached from a Domain node through its children (spec section 4.3). -/
def domIPs (s : Store) (d : String) : List String :=
  ((s.resolves.filter fun e => (domChildren s d).contains e.1).map Prod.snd).dedup

/-- Modelled from the spec: the Domain aggregates of AddNode.update_domMal_feats
(src/addnode.py is not under src/; spec section 4.3): counts, sums, min/max/avg of
engagement and popularity over the neighbor FQDNs, and the two ratio aggregates with
the division-by-zero guard of section 7 — 0 when cntFQDN = 0, never an error. -/
def domAggregates (s : Store) (d : String) : DomAttrs :=
  let attrs := childAttrs s d
  let engs := attrs.map FQDNAttrs.malEngagement
  let pops := attrs.map FQDNAttrs.popularity
  let cnt := (domChildren s d).length
  let cntMal := (attrs.filter fun a => a.isMalicious).length
  { cntFQDN := cnt
    cntIP := (domIPs s d).length
    cntMalFQDNs := cntMal
    sumMalEng := sumQ engs
    maxMalEng := maxQ engs
    minMalEng := minQ engs
    avgMalEng := avgQ engs
    maxCisco := maxQ pops
    minCisco := minQ pops
    avgCisco := avgQ pops
    malFQDN_ratio := if cnt = 0 then 0 else (cntMal : Rat) / (cnt : Rat)
    malEng_ratio := if cnt = 0 then 0 else sumQ engs / (cnt : Rat) }

/-- Modelled from the spec: AddNode.update_domMal_feats recomputes every Domain
node's aggregates from its current neighbors (spec section 3: aggregates are fully
recomputed each run, never incrementally patched). -/
def update_domMal_feats (s : Store) : Store :=
  { s with domAttrs := s.domains.map fun d => (d, domAggregates s d) }

/-- Hosts resolving to an IP. -/
def ipHosts (s : Store) (i : String) : List String :=
  (s.resolves.filter fun e => decide (e.2 = i)).map Prod.fst

/-- Distinct Domains sharing an IP through their FQDNs. -/
def ipDomainsOf (s : Store) (i : String) : List String :=
  ((s.belongs.filter fun e => (ipHosts s i).contains e.1).map Prod.snd).dedup

/-- A Domain with at least one malicious FQDN child. -/
def isMalDomain (s : Store) (d : String) : Bool :=
  (childAttrs s d).any fun a => a.isMalicious

/-- Modelled from the spec: the IP aggregates of AddNode.update_ipMal_feats (spec
section 4.3 IP pass): counts of distinct domains and malicious domains sharing the
IP, and the summarized engagement of those domains. -/
def ipAggregates (s : Store) (i : String) : IpAttrs :=
  let doms := ipDomainsOf s i
  { ipDom := doms.length
    ipMalDom := (doms.filter fun d => isMalDomain s d).length
    ipDomMalEng :=
      sumQ (doms.map fun d => sumQ ((childAttrs s d).map FQDNAttrs.malEngagement)) }

/-- Modelled from the spec: AddNode.update_ipMal_feats recomputes every IP node's
aggregates from its current neighbors. -/
def update_ipMal_feats (s : Store) : Store :=
  { s with ipAttrs := s.ips.map fun i => (i, ipAggregates s i) }

/- ## Claim C6 -/

/-- C6: for any Domain node with cntFQDN = 0 both ratio aggregates evaluate to 0; the
division-by-zero case is guarded, the aggregate is total and never raises. -/
theorem c6_ratio_zero_guard (s : Store) (d : String)
    (h : (domAggregates s d).cntFQDN = 0) :
    (domAggregates s d).malFQDN_ratio = 0 ∧ (domAggregates s d).malEng_ratio = 0 := by
  simp only [domAggregates] at h ⊢
  simp [h]

/-- A small concrete store: one FQDN under example.com, plus a Domain node
orphan.com with no FQDN children. -/
def c6Store : Store :=
  { fqdns := [("a.example.com",
      { logday := "2021-03-30", popularity := 1/2, isMalicious := false,
        malEngagement := 0 })]
    domains := ["example.com", "orphan.com"]
    ips := ["1.1.1.1"]
    belongs := [("a.example.com", "example.com")]
    resolves := [("a.example.com", "1.1.1.1")]
    domAttrs := []
    ipAttrs := [] }

/-- Witness for C6 at the childless Domain node of the concrete store. -/
theorem c6_witness :
    (domAggregates c6Store "orphan.com").malFQDN_ratio = 0 ∧
    (domAggregates c6Store "orphan.com").malEng_ratio = 0 :=
  c6_ratio_zero_guard c6Store "orphan.com" (by decide)

/- ## Claim C4 -/

/-- The graph passes that run after the daily upsert (cell-12): label propagation and
the two aggregation passes.  Distance scoring (cell-19) runs on the exported score
files outside the graph database and performs no graph writes, so it contributes no
store action. -/
inductive LabelOp where
  | labels (rows : List (String × Rat))
  | domFeats
  | ipFeats
deriving DecidableEq

/-- Store action of one pass. -/
def applyLabelOp (s : Store) : LabelOp → Store
  | .labels rows => update_labels s rows
  | .domFeats => update_domMal_feats s
  | .ipFeats => update_ipMal_feats s

/-- Running any sequence of post-upsert passes. -/
def runLabelOps (s : Store) (ops : List LabelOp) : Store := ops.foldl applyLabelOp s

/-- Attribute evolution order: the malicious flag persists and the engagement score
never decreases. -/
def attrLe (a b : FQDNAttrs) : Prop :=
  (a.isMalicious = true → b.isMalicious = true) ∧ a.malEngagement ≤ b.malEngagement

theorem attrLe_refl (a : FQDNAttrs) : attrLe a a := ⟨fun h => h, le_refl _⟩

theorem attrLe_trans {a b c : FQDNAttrs} (h1 : attrLe a b) (h2 : attrLe b c) :
    attrLe a c := ⟨fun h => h2.1 (h1.1 h), le_trans h1.2 h2.2⟩

theorem lookupA_applyLabelRow (fq : List (String × FQDNAttrs)) (host : String)
    (eng : Rat) (k : String) (a : FQDNAttrs) (hk : lookupA fq k = some a) :
    ∃ b, lookupA (applyLabelRow fq host eng) k = some b ∧ attrLe a b := by
  induction fq with
  | nil => simp [lookupA] at hk
  | cons p rest ih =>
    obtain ⟨k0, a0⟩ := p
    simp only [applyLabelRow]
    by_cases hkh : k0 = host
    · rw [if_pos hkh]
      by_cases hkk : k0 = k
      · subst hkk
        simp only [lookupA, if_pos rfl] at hk
        injection hk with hk
        subst hk
        refine ⟨{ a0 with isMalicious := true, malEngagement := max a0.malEngagement eng }, ?_, ?_, ?_⟩
        · simp [lookupA]
        · intro _; rfl
        · exact le_max_left _ _
      · simp only [lookupA, if_neg hkk] at hk
        exact ⟨a, by simp [lookupA, if_neg hkk, hk], attrLe_refl a⟩
    · rw [if_neg hkh]
      by_cases hkk : k0 = k
      · subst hkk
        simp only [lookupA, if_pos rfl] at hk
        injection hk with hk
        subst hk
        exact ⟨a0, by simp [lookupA], attrLe_refl a0⟩
      · simp only [lookupA, if_neg hkk] at hk
        obtain ⟨b, hb, hab⟩ := ih hk
        exact ⟨b, by simp [lookupA, if_neg hkk, hb], hab⟩

theorem lookupA_update_labels (s : Store) (malrows : List (String × Rat)) (k : String)
    (a : FQDNAttrs) (hk : lookupA s.fqdns k = some a) :
    ∃ b, lookupA (update_labels s malrows).fqdns k = some b ∧ attrLe a b := by
  suffices h : ∀ (rows : List (String × Rat)) (fq : List (String × FQDNAttrs))
      (a : FQDNAttrs), lookupA fq k = some a →
      ∃ b, lookupA (rows.foldl (fun fq r => applyLabelRow fq r.1 r.2) fq) k = some b ∧
        attrLe a b from h malrows s.fqdns a hk
  intro rows
  induction rows with
  | nil => exact fun fq a hk => ⟨a, hk, attrLe_refl a⟩
  | cons r rest ih =>
    intro fq a hk
    obtain ⟨b, hb, hab⟩ := lookupA_applyLabelRow fq r.1 r.2 k a hk
    obtain ⟨c, hc, hbc⟩ := ih _ b hb
    exact ⟨c, hc, attrLe_trans hab hbc⟩

/-- C4: over any sequence of label-propagation and aggregation passes, an FQDN node
that is malicious stays malicious and its engagement never decreases (distance
scoring does not write to the graph at all); and one label application sets the
engagement to exactly max(existing, incoming). -/
theorem c4_label_monotone :
    (∀ (s : Store) (ops : List LabelOp) (k : String) (a : FQDNAttrs),
      lookupA s.fqdns k = some a →
      ∃ b, lookupA (runLabelOps s ops).fqdns k = some b ∧
        (a.isMalicious = true → b.isMalicious = true) ∧
        a.malEngagement ≤ b.malEngagement) ∧
    (∀ (fq : List (String × FQDNAttrs)) (host : String) (eng : Rat) (a : FQDNAttrs),
      lookupA fq host = some a →
      lookupA (applyLabelRow fq host eng) host =
        some { a with isMalicious := true,
                      malEngagement := max a.malEngagement eng }) := by
  constructor
  · intro s ops
    induction ops generalizing s with
    | nil => exact fun k a hk => ⟨a, hk, fun h => h, le_refl _⟩
    | cons op rest ih =>
      intro k a hk
      have step : ∃ b, lookupA (applyLabelOp s op).fqdns k = some b ∧ attrLe a b := by
        cases op with
        | labels rows => exact lookupA_update_labels s rows k a hk
        | domFeats => exact ⟨a, hk, attrLe_refl a⟩
        | ipFeats => exact ⟨a, hk, attrLe_refl a⟩
      obtain ⟨b, hb, hab⟩ := step
      obtain ⟨c, hc, hbc1, hbc2⟩ := ih (applyLabelOp s op) k b hb
      exact ⟨c, hc, fun h => hbc1 (hab.1 h), le_trans hab.2 hbc2⟩
  · intro fq host eng
    induction fq with
    | nil => intro a hk; simp [lookupA] at hk
    | cons p rest ih =>
      intro a hk
      obtain ⟨k0, a0⟩ := p
      simp only [applyLabelRow]
      by_cases hkh : k0 = host
      · subst hkh
        simp only [lookupA, if_pos rfl] at hk
        injection hk with hk
        subst hk
        simp [lookupA]
      · rw [if_neg hkh]
        simp only [lookupA, if_neg hkh] at hk ⊢
        exact ih a hk

/-- A concrete store with a labelled malicious FQDN. -/
def c4Store : Store :=
  { fqdns := [("b.evil.com",
      { logday := "2021-03-29", popularity := 0, isMalicious := true,
        malEngagement := 5 })]
    domains := ["evil.com"]
    ips := ["1.1.1.1"]
    belongs := [("b.evil.com", "evil.com")]
    resolves := [("b.evil.com", "1.1.1.1")]
    domAttrs := []
    ipAttrs := [] }

/-- A concrete pass sequence: one label propagation with a lower incoming score, then
both aggregation passes. -/
def c4Ops : List LabelOp := [.labels [("b.evil.com", 1)], .domFeats, .ipFeats]

/-- Witness for C4 at the concrete store and pass sequence. -/
theorem c4_witness :
    (∃ b, lookupA (runLabelOps c4Store c4Ops).fqdns "b.evil.com" = some b ∧
      ((true : Bool) = true → b.isMalicious = true) ∧ (5 : Rat) ≤ b.malEngagement) ∧
    lookupA (applyLabelRow c4Store.fqdns "b.evil.com" 1) "b.evil.com" =
      some { logday := "2021-03-29", popularity := 0, isMalicious := true,
             malEngagement := max 5 1 } :=
  ⟨c4_label_monotone.1 c4Store c4Ops "b.evil.com" _ rfl,
   c4_label_monotone.2 c4Store.fqdns "b.evil.com" 1 _ rfl⟩

/- ## Claim C8 -/

/-- The pipeline passes invoked by the notebook. -/
inductive PipeOp where
  | addNodesOp
  | updateLabelsOp
  | domFeatsOp
  | ipFeatsOp
  | exportDomOp
  | exportIpOp
  | domScoreOp
  | ipScoreOp
  | len2malOp
  | assembleOp
deriving DecidableEq, BEq

/-- The call order of 1_genfeats_graph.ipynb: cell-12 calls add_nodes, update_labels,
update_domMal_feats and update_ipMal_feats in sequence; cell-13 exports the Domain
and IP raw scores; cells 17, 18 and 19 compute the domain features, IP features and
distance-to-malicious features from the exports; cell-22 assembles the wide table. -/
def notebookCallOrder : List PipeOp :=
  [.addNodesOp, .updateLabelsOp, .domFeatsOp, .ipFeatsOp,
   .exportDomOp, .exportIpOp, .domScoreOp, .ipScoreOp, .len2malOp, .assembleOp]

/-- Store action of each pass: the first four mutate the graph; the export, score and
assembly passes only read the store or the exported files, writing no graph state. -/
def pipeStep (batch : List URow) (mal : List (String × Rat)) (s : Store) :
    PipeOp → Store
  | .addNodesOp => add_nodes s batch
  | .updateLabelsOp => update_labels s mal
  | .domFeatsOp => update_domMal_feats s
  | .ipFeatsOp => update_ipMal_feats s
  | _ => s

/-- Running the notebook's calls in their recorded order. -/
def runNotebook (batch : List URow) (mal : List (String × Rat)) (s : Store) : Store :=
  notebookCallOrder.foldl (pipeStep batch mal) s

/-- C8: the notebook executes its passes in the fixed order graph upsert, label
propagation, Domain aggregation, IP aggregation, raw-score exports, with distance
scoring after label propagation; running that order equals the composition in which
every aggregation pass and the distance pass see the post-label store — no
aggregation or distance pass precedes the labels of the run. -/
theorem c8_fixed_order (batch : List URow) (mal : List (String × Rat)) (s : Store) :
    runNotebook batch mal s =
      update_ipMal_feats (update_domMal_feats (update_labels (add_nodes s batch) mal)) ∧
    notebookCallOrder.indexOf .addNodesOp < notebookCallOrder.indexOf .updateLabelsOp ∧
    notebookCallOrder.indexOf .updateLabelsOp < notebookCallOrder.indexOf .domFeatsOp ∧
    notebookCallOrder.indexOf .domFeatsOp < notebookCallOrder.indexOf .ipFeatsOp ∧
    notebookCallOrder.indexOf .ipFeatsOp < notebookCallOrder.indexOf .exportDomOp ∧
    notebookCallOrder.indexOf .exportDomOp < notebookCallOrder.indexOf .exportIpOp ∧
    notebookCallOrder.indexOf .updateLabelsOp < notebookCallOrder.indexOf .len2malOp :=
  ⟨rfl, by decide, by decide, by decide, by decide, by decide, by decide⟩

/- ## Claim C5: idempotence of the daily upsert -/

/-- The keys of a key-attribute list. -/
def keysOf {α : Type} (l : List (String × α)) : List String := l.map Prod.fst

/-- Component fold of add_nodes over the batch for a set-like node or edge list. -/
def foldIns {α : Type} [DecidableEq α] (f : URow → Option α) (l : List α)
    (batch : List URow) : List α :=
  batch.foldl (fun l r => insOpt (f r) l) l

/-- Component fold of add_nodes over the batch for the FQDN attribute list. -/
def upsAll (fq : List (String × FQDNAttrs)) (batch : List URow) :
    List (String × FQDNAttrs) :=
  batch.foldl (fun fq r => upsertFQDN fq r.host r.logday r.popularity) fq

theorem mem_insertNew {α : Type} [DecidableEq α] {y : α} {l : List α} (x : α)
    (h : y ∈ l) : y ∈ insertNew x l := by
  unfold insertNew
  split
  · exact h
  · exact List.mem_append_left _ h

theorem self_mem_insertNew {α : Type} [DecidableEq α] (x : α) (l : List α) :
    x ∈ insertNew x l := by
  unfold insertNew
  split
  · assumption
  · exact List.mem_append_right _ (List.mem_singleton.mpr rfl)

theorem insertNew_eq_of_mem {α : Type} [DecidableEq α] {x : α} {l : List α}
    (h : x ∈ l) : insertNew x l = l := by
  unfold insertNew
  rw [if_pos h]

theorem mem_insOpt {α : Type} [DecidableEq α] {y : α} {l : List α} (o : Option α)
    (h : y ∈ l) : y ∈ insOpt o l := by
  cases o with
  | none => exact h
  | some x => exact mem_insertNew x h

theorem mem_foldIns {α : Type} [DecidableEq α] (f : URow → Option α) {l : List α}
    {y : α} (h : y ∈ l) (batch : List URow) : y ∈ foldIns f l batch := by
  induction batch generalizing l with
  | nil => exact h
  | cons r rest ih => exact ih (mem_insOpt (f r) h)

theorem key_mem_foldIns {α : Type} [DecidableEq α] (f : URow → Option α) (l : List α)
    {batch : List URow} {r : URow} (hr : r ∈ batch) {x : α} (hx : f r = some x) :
    x ∈ foldIns f l batch := by
  induction batch generalizing l with
  | nil => exact absurd hr (List.not_mem_nil r)
  | cons r0 rest ih =>
    rcases List.mem_cons.mp hr with rfl | hmem
    · show x ∈ foldIns f (insOpt (f r) l) rest
      apply mem_foldIns
      rw [hx]
      exact self_mem_insertNew x l
    · exact ih _ hmem

theorem foldIns_absorb {α : Type} [DecidableEq α] (f : URow → Option α) (l : List α)
    (batch : List URow) :
    (∀ r ∈ batch, ∀ x, f r = some x → x ∈ l) → foldIns f l batch = l := by
  induction batch with
  | nil => intro _; rfl
  | cons r rest ih =>
    intro h
    have h1 : insOpt (f r) l = l := by
      cases hf : f r with
      | none => rfl
      | some x => exact insertNew_eq_of_mem (h r (List.mem_cons_self r rest) x hf)
    show foldIns f (insOpt (f r) l) rest = l
    rw [h1]
    exact ih fun r2 hr2 x hx => h r2 (List.mem_cons_of_mem r hr2) x hx

theorem foldIns_replay {α : Type} [DecidableEq α] (f : URow → Option α) (l : List α)
    (batch : List URow) : foldIns f (foldIns f l batch) batch = foldIns f l batch :=
  foldIns_absorb f _ batch fun _ hr _ hx => key_mem_foldIns f l hr hx

theorem upsertFQDN_last_write (fq : List (String × FQDNAttrs)) (h d : String) (p : Rat)
    (d2 : String) (p2 : Rat) :
    upsertFQDN (upsertFQDN fq h d p) h d2 p2 = upsertFQDN fq h d2 p2 := by
  induction fq with
  | nil => simp [upsertFQDN]
  | cons pa rest ih =>
    obtain ⟨k, a⟩ := pa
    by_cases hk : k = h
    · simp [upsertFQDN, hk]
    · simp [upsertFQDN, hk, ih]

theorem lookupA_upsertFQDN_self (fq : List (String × FQDNAttrs)) (h d : String)
    (p : Rat) :
    ∃ a, lookupA (upsertFQDN fq h d p) h = some a ∧ a.logday = d ∧ a.popularity = p := by
  induction fq with
  | nil =>
    refine ⟨{ logday := d, popularity := p, isMalicious := false, malEngagement := 0 },
      ?_, rfl, rfl⟩
    simp [upsertFQDN, lookupA]
  | cons pa rest ih =>
    obtain ⟨k, a⟩ := pa
    by_cases hk : k = h
    · subst hk
      refine ⟨{ a with logday := d, popularity := p }, ?_, rfl, rfl⟩
      simp [upsertFQDN, lookupA]
    · obtain ⟨b, hb, h1, h2⟩ := ih
      exact ⟨b, by simp [upsertFQDN, lookupA, hk, hb], h1, h2⟩

theorem upsertFQDN_noop (fq : List (String × FQDNAttrs)) (h : String) (a : FQDNAttrs)
    (ha : lookupA fq h = some a) : upsertFQDN fq h a.logday a.popularity = fq := by
  induction fq with
  | nil => simp [lookupA] at ha
  | cons pa rest ih =>
    obtain ⟨k, b⟩ := pa
    by_cases hk : k = h
    · subst hk
      simp only [lookupA, if_pos rfl] at ha
      injection ha with ha
      subst ha
      simp [upsertFQDN]
    · simp only [lookupA, if_neg hk] at ha
      simp [upsertFQDN, hk, ih ha]

theorem upsertFQDN_noop2 (fq : List (String × FQDNAttrs)) (h d : String) (p : Rat)
    (a : FQDNAttrs) (ha : lookupA fq h = some a) (hd : a.logday = d)
    (hp : a.popularity = p) : upsertFQDN fq h d p = fq := by
  subst hd
  subst hp
  exact upsertFQDN_noop fq h a ha

theorem lookupA_upsertFQDN_ne (fq : List (String × FQDNAttrs)) (h h2 d : String)
    (p : Rat) (hne : h2 ≠ h) : lookupA (upsertFQDN fq h2 d p) h = lookupA fq h := by
  induction fq with
  | nil => simp [upsertFQDN, lookupA, hne]
  | cons pa rest ih =>
    obtain ⟨k, a⟩ := pa
    by_cases hk : k = h2
    · subst hk
      simp [upsertFQDN, lookupA, hne]
    · simp [upsertFQDN, lookupA, hk, ih]

theorem lookupA_upsAll_ne (fq : List (String × FQDNAttrs)) (batch : List URow)
    (h : String) (hnone : ∀ r ∈ batch, r.host ≠ h) :
    lookupA (upsAll fq batch) h = lookupA fq h := by
  induction batch generalizing fq with
  | nil => rfl
  | cons r rest ih =>
    show lookupA (upsAll (upsertFQDN fq r.host r.logday r.popularity) rest) h = _
    rw [ih _ fun r2 h2 => hnone r2 (List.mem_cons_of_mem r h2)]
    exact lookupA_upsertFQDN_ne fq h r.host r.logday r.popularity
      (hnone r (List.mem_cons_self r rest))

theorem mem_keys_upsertFQDN (fq : List (String × FQDNAttrs)) (host d : String)
    (p : Rat) {h : String} (hm : h ∈ keysOf fq) :
    h ∈ keysOf (upsertFQDN fq host d p) := by
  induction fq with
  | nil => exact absurd hm (List.not_mem_nil h)
  | cons pa rest ih =>
    obtain ⟨k, a⟩ := pa
    simp only [keysOf, List.map_cons] at hm
    by_cases hk : k = host
    · simp only [upsertFQDN, if_pos hk, keysOf, List.map_cons]
      exact hm
    · simp only [upsertFQDN, if_neg hk, keysOf, List.map_cons]
      rcases List.mem_cons.mp hm with rfl | hmr
      · exact List.mem_cons_self _ _
      · exact List.mem_cons_of_mem _ (ih hmr)

theorem host_mem_keys_upsertFQDN (fq : List (String × FQDNAttrs)) (host d : String)
    (p : Rat) : host ∈ keysOf (upsertFQDN fq host d p) := by
  induction fq with
  | nil => simp [upsertFQDN, keysOf]
  | cons pa rest ih =>
    obtain ⟨k, a⟩ := pa
    by_cases hk : k = host
    · simp [upsertFQDN, hk, keysOf]
    · simp only [upsertFQDN, if_neg hk, keysOf, List.map_cons]
      exact List.mem_cons_of_mem _ ih

theorem mem_keys_upsAll (fq : List (String × FQDNAttrs)) (batch : List URow)
    {h : String} (hm : h ∈ keysOf fq) : h ∈ keysOf (upsAll fq batch) := by
  induction batch generalizing fq with
  | nil => exact hm
  | cons r rest ih => exact ih _ (mem_keys_upsertFQDN _ r.host r.logday r.popularity hm)

theorem upsertFQDN_comm (fq : List (String × FQDNAttrs)) (h d : String) (p : Rat)
    (h2 d2 : String) (p2 : Rat) (hne : h ≠ h2) (hmem : h ∈ keysOf fq) :
    upsertFQDN (upsertFQDN fq h d p) h2 d2 p2 =
      upsertFQDN (upsertFQDN fq h2 d2 p2) h d p := by
  induction fq with
  | nil => exact absurd hmem (List.not_mem_nil h)
  | cons pa rest ih =>
    obtain ⟨k, a⟩ := pa
    by_cases hk : k = h
    · subst hk
      simp [upsertFQDN, hne]
    · by_cases hk2 : k = h2
      · subst hk2
        simp [upsertFQDN, hk]
      · simp only [keysOf, List.map_cons] at hmem
        rcases List.mem_cons.mp hmem with rfl | hmr
        · exact absurd rfl hk
        · simp [upsertFQDN, hk, hk2, ih hmr]

theorem upsAll_upsert_absorb (batch : List URow) :
    ∀ (fq : List (String × FQDNAttrs)) (h d : String) (p : Rat),
      h ∈ keysOf fq → (∃ r ∈ batch, r.host = h) →
      upsAll (upsertFQDN fq h d p) batch = upsAll fq batch := by
  induction batch with
  | nil =>
    intro fq h d p _ hrow
    obtain ⟨r, hr, _⟩ := hrow
    exact absurd hr (List.not_mem_nil r)
  | cons r0 rest ih =>
    intro fq h d p hmem hrow
    show upsAll (upsertFQDN (upsertFQDN fq h d p) r0.host r0.logday r0.popularity) rest
        = upsAll (upsertFQDN fq r0.host r0.logday r0.popularity) rest
    by_cases h0 : r0.host = h
    · rw [h0, upsertFQDN_last_write]
    · obtain ⟨r, hr, hrh⟩ := hrow
      rcases List.mem_cons.mp hr with rfl | hmemr
      · exact absurd hrh h0
      · rw [upsertFQDN_comm fq h d p r0.host r0.logday r0.popularity
          (fun he => h0 he.symm) hmem]
        exact ih _ h d p (mem_keys_upsertFQDN fq r0.host r0.logday r0.popularity hmem)
          ⟨r, hmemr, hrh⟩

theorem upsAll_replay (fq : List (String × FQDNAttrs)) (batch : List URow) :
    upsAll (upsAll fq batch) batch = upsAll fq batch := by
  induction batch generalizing fq with
  | nil => rfl
  | cons r rest ih =>
    show upsAll (upsertFQDN (upsAll (upsertFQDN fq r.host r.logday r.popularity) rest)
        r.host r.logday r.popularity) rest
      = upsAll (upsertFQDN fq r.host r.logday r.popularity) rest
    by_cases hrow : ∃ r2 ∈ rest, r2.host = r.host
    · rw [upsAll_upsert_absorb rest _ r.host r.logday r.popularity
        (mem_keys_upsAll _ rest (host_mem_keys_upsertFQDN fq r.host r.logday r.popularity))
        hrow]
      exact ih _
    · push_neg at hrow
      obtain ⟨a, ha, hd, hp⟩ := lookupA_upsertFQDN_self fq r.host r.logday r.popularity
      have hlook : lookupA (upsAll (upsertFQDN fq r.host r.logday r.popularity) rest)
          r.host = some a := by
        rw [lookupA_upsAll_ne _ rest r.host hrow]
        exact ha
      rw [upsertFQDN_noop2 _ r.host r.logday r.popularity a hlook hd hp]
      exact ih _

/-- The add_nodes fold acts componentwise: each node and edge list is the fold of its
own per-row merge over the batch, and the aggregate attributes are untouched. -/
theorem add_nodes_components (s : Store) (batch : List URow) :
    add_nodes s batch =
      { fqdns := upsAll s.fqdns batch
        domains := foldIns domKey s.domains batch
        ips := foldIns (fun r => some r.server_ip) s.ips batch
        belongs := foldIns belongsKey s.belongs batch
        resolves := foldIns (fun r => some (r.host, r.server_ip)) s.resolves batch
        domAttrs := s.domAttrs
        ipAttrs := s.ipAttrs } := by
  induction batch generalizing s with
  | nil => rfl
  | cons r rest ih =>
    show add_nodes (upsertRow s r) rest = _
    rw [ih (upsertRow s r)]
    rfl

/-- C5: the graph upsert is idempotent — applying the same daily batch to the store
twice yields exactly the same graph state (identical node and edge lists, identical
attribute values) as applying it once; no duplicate nodes or edges are created. -/
theorem c5_upsert_idempotent (s : Store) (batch : List URow) :
    add_nodes (add_nodes s batch) batch = add_nodes s batch := by
  rw [add_nodes_components s batch, add_nodes_components]
  simp only [Store.mk.injEq]
  exact ⟨upsAll_replay _ _, foldIns_replay _ _ _, foldIns_replay _ _ _,
    foldIns_replay _ _ _, foldIns_replay _ _ _, trivial, trivial⟩

/- ## Claim C2: distance to the nearest malicious FQDN -/

/-- One row of the graph-input file as read back by gen_len2mal_score (cell-19 log:
Raw Data shape (100, 3) — the host, domain and server-address columns). -/
structure GRow where
  host : String
  domain : String
  ip : String
deriving DecidableEq

/-- Nodes of the property graph: FQDN, Domain and IP nodes. -/
inductive GNode where
  | fqdn (h : String)
  | dom (d : String)
  | ip (i : String)
deriving DecidableEq

/-- Boolean membership of a node in a node list. -/
def nodeMem (n : GNode) (l : List GNode) : Bool := l.any fun m => decide (n = m)

/-- Undirected adjacency in the property graph built from the daily rows: every row
contributes a BELONGS_TO edge between its FQDN and Domain nodes and a RESOLVES_TO
edge between its FQDN and IP nodes (spec section 3). -/
def gAdj (rows : List GRow) (n m : GNode) : Bool :=
  rows.any fun r =>
    decide ((n = .fqdn r.host ∧ m = .dom r.domain) ∨
      (n = .dom r.domain ∧ m = .fqdn r.host) ∨
      (n = .fqdn r.host ∧ m = .ip r.ip) ∨
      (n = .ip r.ip ∧ m = .fqdn r.host))

/-- All nodes of the graph, plus the seed nodes. -/
def allNodes (rows : List GRow) (seeds : List GNode) : List GNode :=
  seeds ++ rows.foldr (fun r acc => .fqdn r.host :: .dom r.domain :: .ip r.ip :: acc) []

/-- One BFS expansion: the frontier plus every node adjacent to it. -/
def expandFront (rows : List GRow) (seeds front : List GNode) : List GNode :=
  front ++ (allNodes rows seeds).filter fun n => front.any fun m => gAdj rows m n

/-- Multi-source BFS level search: the depth at which the target enters the frontier,
capped by the remaining fuel. -/
def hopDistAux (rows : List GRow) (seeds : List GNode) (target : GNode)
    (front : List GNode) (depth : Nat) : Nat → Nat
  | 0 => depth
  | fuel + 1 =>
    cond (nodeMem target front) depth
      (hopDistAux rows seeds target (expandFront rows seeds front) (depth + 1) fuel)

theorem hopDistAux_succ (rows : List GRow) (seeds : List GNode) (target : GNode)
    (front : List GNode) (depth fuel : Nat) :
    hopDistAux rows seeds target front depth (fuel + 1) =
      cond (nodeMem target front) depth
        (hopDistAux rows seeds target (expandFront rows seeds front) (depth + 1) fuel) :=
  rfl

/-- Hop distance from the seed set to a target, with sentinel cap: the number of
property-graph edges from the nearest seed, or the cap itself when no seed is within
reach. -/
def hopDist (rows : List GRow) (seeds : List GNode) (cap : Nat) (target : GNode) : Nat :=
  hopDistAux rows seeds target seeds 0 cap

/-- Modelled from the spec: gen_len2mal_score (src/graphscore_feats.py, not under
src/) computes for each host the minimum distance to a malicious FQDN by search from
the malicious seeds over the shared-infrastructure graph (spec section 4.4), with a
sentinel for hosts from which no malicious FQDN is reachable.  Hop length is counted
in property-graph edges — the BELONGS_TO and RESOLVES_TO edges of spec section 3 —
which is what the recorded notebook export shows: the host syzs.qq.com, whose Domain
qq.com has one malicious FQDN child, gets minlen2malFQDN = 2 in the cell-22 output,
and every host with no reachable malicious FQDN gets the sentinel 10. -/
def minlen2malFQDN (rows : List GRow) (mal : List String) (h : String) : Nat :=
  hopDist rows (mal.map GNode.fqdn) 10 (.fqdn h)

theorem nodeMem_iff {n : GNode} {l : List GNode} : nodeMem n l = true ↔ n ∈ l := by
  simp [nodeMem, List.any_eq_true]

theorem gAdj_iff {rows : List GRow} {n m : GNode} :
    gAdj rows n m = true ↔ ∃ r ∈ rows,
      (n = .fqdn r.host ∧ m = .dom r.domain) ∨
      (n = .dom r.domain ∧ m = .fqdn r.host) ∨
      (n = .fqdn r.host ∧ m = .ip r.ip) ∨
      (n = .ip r.ip ∧ m = .fqdn r.host) := by
  simp [gAdj, List.any_eq_true]

/-- FQDN nodes are never adjacent to FQDN nodes: every edge of the property graph
connects an FQDN to a Domain or IP node. -/
theorem gAdj_fqdn_fqdn (rows : List GRow) (x y : String) :
    gAdj rows (.fqdn x) (.fqdn y) = false := by
  rw [Bool.eq_false_iff]
  intro h
  obtain ⟨r, _, hcase⟩ := gAdj_iff.mp h
  rcases hcase with ⟨_, h2⟩ | ⟨h2, _⟩ | ⟨_, h2⟩ | ⟨h2, _⟩ <;> exact GNode.noConfusion h2

theorem fqdn_mem_seeds_iff {mal : List String} {x : String} :
    GNode.fqdn x ∈ mal.map GNode.fqdn ↔ x ∈ mal := by
  simp

theorem fqdn_mem_allNodes {rows : List GRow} {r : GRow} (hr : r ∈ rows)
    (seeds : List GNode) : GNode.fqdn r.host ∈ allNodes rows seeds := by
  apply List.mem_append.mpr
  right
  induction rows with
  | nil => exact absurd hr (List.not_mem_nil r)
  | cons r0 rest ih =>
    rcases List.mem_cons.mp hr with rfl | hmr
    · exact List.mem_cons_self _ _
    · exact List.mem_cons_of_mem _
        (List.mem_cons_of_mem _ (List.mem_cons_of_mem _ (ih hmr)))

theorem dom_mem_allNodes {rows : List GRow} {r : GRow} (hr : r ∈ rows)
    (seeds : List GNode) : GNode.dom r.domain ∈ allNodes rows seeds := by
  apply List.mem_append.mpr
  right
  induction rows with
  | nil => exact absurd hr (List.not_mem_nil r)
  | cons r0 rest ih =>
    rcases List.mem_cons.mp hr with rfl | hmr
    · exact List.mem_cons_of_mem _ (List.mem_cons_self _ _)
    · exact List.mem_cons_of_mem _
        (List.mem_cons_of_mem _ (List.mem_cons_of_mem _ (ih hmr)))

theorem ip_mem_allNodes {rows : List GRow} {r : GRow} (hr : r ∈ rows)
    (seeds : List GNode) : GNode.ip r.ip ∈ allNodes rows seeds := by
  apply List.mem_append.mpr
  right
  induction rows with
  | nil => exact absurd hr (List.not_mem_nil r)
  | cons r0 rest ih =>
    rcases List.mem_cons.mp hr with rfl | hmr
    · exact List.mem_cons_of_mem _ (List.mem_cons_of_mem _ (List.mem_cons_self _ _))
    · exact List.mem_cons_of_mem _
        (List.mem_cons_of_mem _ (List.mem_cons_of_mem _ (ih hmr)))

theorem mem_expandFront_of_mem {rows : List GRow} {seeds front : List GNode}
    {n : GNode} (h : n ∈ front) : n ∈ expandFront rows seeds front :=
  List.mem_append.mpr (Or.inl h)

theorem mem_expandFront_of_adj {rows : List GRow} {seeds front : List GNode}
    {n m : GNode} (hm : m ∈ front) (hn : n ∈ allNodes rows seeds)
    (hadj : gAdj rows m n = true) : n ∈ expandFront rows seeds front := by
  apply List.mem_append.mpr
  right
  exact List.mem_filter.mpr ⟨hn, List.any_eq_true.mpr ⟨m, hm, hadj⟩⟩

/-- A non-seed FQDN node never enters the frontier after one expansion from the seed
FQDNs, because FQDN nodes are never adjacent to FQDN nodes. -/
theorem fqdn_not_mem_expand_seeds {rows : List GRow} {mal : List String} {a : String}
    (ha : a ∉ mal) :
    nodeMem (GNode.fqdn a)
      (expandFront rows (mal.map GNode.fqdn) (mal.map GNode.fqdn)) = false := by
  rw [Bool.eq_false_iff]
  intro h
  rcases List.mem_append.mp (nodeMem_iff.mp h) with h1 | h2
  · exact ha (fqdn_mem_seeds_iff.mp h1)
  · obtain ⟨_, hadj⟩ := List.mem_filter.mp h2
    obtain ⟨m, hm, hadjm⟩ := List.any_eq_true.mp hadj
    obtain ⟨y, _, rfl⟩ := List.mem_map.mp hm
    rw [gAdj_fqdn_fqdn] at hadjm
    exact Bool.noConfusion hadjm

/-- The two-FQDN example of the spec: a.example.com and b.evil.com share the IP
1.1.1.1, and b.evil.com is on the malicious list. -/
def exRows : List GRow :=
  [{ host := "a.example.com", domain := "example.com", ip := "1.1.1.1" },
   { host := "b.evil.com", domain := "evil.com", ip := "1.1.1.1" }]

/-- C2 counterexample: in the spec's own two-FQDN example, the distance scorer yields
2 for the benign host that shares an IP with the malicious one — one property-graph
edge to the shared IP node and one more to the malicious FQDN — not 1 as the claim
states; the malicious host itself gets 0. -/
theorem c2_counterexample :
    minlen2malFQDN exRows ["b.evil.com"] "a.example.com" = 2 ∧
    ¬ minlen2malFQDN exRows ["b.evil.com"] "a.example.com" = 1 ∧
    minlen2malFQDN exRows ["b.evil.com"] "b.evil.com" = 0 := by
  refine ⟨by decide, by decide, by decide⟩

/-- C2 amended: two FQDNs that share a Domain node or an IP node are at hop distance
2 in the property graph the scorer searches (FQDN, shared node, FQDN), so a benign
FQDN sharing infrastructure with a malicious one gets minlen2malFQDN = 2, not 1; a
malicious FQDN itself gets distance 0. -/
theorem c2_amended (rows : List GRow) (mal : List String) (a b : String)
    (ra rb : GRow) (hra : ra ∈ rows) (hrb : rb ∈ rows) (hha : ra.host = a)
    (hhb : rb.host = b) (hshare : ra.domain = rb.domain ∨ ra.ip = rb.ip)
    (hmalb : b ∈ mal) (hmala : a ∉ mal) :
    minlen2malFQDN rows mal a = 2 ∧ ∀ c ∈ mal, minlen2malFQDN rows mal c = 0 := by
  constructor
  · have h0 : nodeMem (GNode.fqdn a) (mal.map GNode.fqdn) = false := by
      rw [Bool.eq_false_iff]
      intro h
      exact hmala (fqdn_mem_seeds_iff.mp (nodeMem_iff.mp h))
    have h1 : nodeMem (GNode.fqdn a)
        (expandFront rows (mal.map GNode.fqdn) (mal.map GNode.fqdn)) = false :=
      fqdn_not_mem_expand_seeds hmala
    have h2 : nodeMem (GNode.fqdn a)
        (expandFront rows (mal.map GNode.fqdn)
          (expandFront rows (mal.map GNode.fqdn) (mal.map GNode.fqdn))) = true := by
      rw [nodeMem_iff]
      have hb_seed : GNode.fqdn b ∈ mal.map GNode.fqdn := fqdn_mem_seeds_iff.mpr hmalb
      have hamem : GNode.fqdn a ∈ allNodes rows (mal.map GNode.fqdn) := by
        rw [← hha]
        exact fqdn_mem_allNodes hra _
      rcases hshare with hd | hi
      · refine mem_expandFront_of_adj (m := GNode.dom rb.domain) ?_ hamem ?_
        · refine mem_expandFront_of_adj (m := GNode.fqdn b) hb_seed
            (dom_mem_allNodes hrb _) ?_
          exact gAdj_iff.mpr ⟨rb, hrb, Or.inl ⟨by rw [hhb], rfl⟩⟩
        · exact gAdj_iff.mpr ⟨ra, hra, Or.inr (Or.inl ⟨by rw [hd], by rw [hha]⟩)⟩
      · refine mem_expandFront_of_adj (m := GNode.ip rb.ip) ?_ hamem ?_
        · refine mem_expandFront_of_adj (m := GNode.fqdn b) hb_seed
            (ip_mem_allNodes hrb _) ?_
          exact gAdj_iff.mpr ⟨rb, hrb, Or.inr (Or.inr (Or.inl ⟨by rw [hhb], rfl⟩))⟩
        · exact gAdj_iff.mpr ⟨ra, hra, Or.inr (Or.inr (Or.inr ⟨by rw [hi], by rw [hha]⟩))⟩
    show hopDistAux rows (mal.map GNode.fqdn) (GNode.fqdn a)
        (mal.map GNode.fqdn) 0 (9 + 1) = 2
    rw [hopDistAux_succ, h0, Bool.cond_false]
    rw [show (9 : Nat) = 8 + 1 from rfl, hopDistAux_succ, h1, Bool.cond_false]
    rw [show (8 : Nat) = 7 + 1 from rfl, hopDistAux_succ, h2, Bool.cond_true]
  · intro c hc
    have hcm : nodeMem (GNode.fqdn c) (mal.map GNode.fqdn) = true := by
      rw [nodeMem_iff]
      exact fqdn_mem_seeds_iff.mpr hc
    show hopDistAux rows (mal.map GNode.fqdn) (GNode.fqdn c)
        (mal.map GNode.fqdn) 0 (9 + 1) = 0
    rw [hopDistAux_succ, hcm, Bool.cond_true]

/-- Witness for C2's amended statement at the spec's two-FQDN example. -/
theorem c2_amended_witness :
    minlen2malFQDN exRows ["b.evil.com"] "a.example.com" = 2 ∧
    ∀ c ∈ ["b.evil.com"], minlen2malFQDN exRows ["b.evil.com"] c = 0 :=
  c2_amended exRows ["b.evil.com"] "a.example.com" "b.evil.com"
    { host := "a.example.com", domain := "example.com", ip := "1.1.1.1" }
    { host := "b.evil.com", domain := "evil.com", ip := "1.1.1.1" }
    (by decide) (by decide) rfl rfl (Or.inr rfl) (by decide) (by decide)

end Bcn
